import Mathlib

/-!
Shallow embedding of the broker-side cluster metadata cache
(`kafka.server.ZkMetadataCache` in `core/src/main/scala/kafka/server/MetadataCache.scala`).

Scala mutable hash maps (`mutable.AnyRefMap`, `mutable.LongMap`, `java.util.HashMap`)
are embedded as association lists with first-match lookup; every mutation of the
source (assignment, `remove`, `++=`, `getOrElseUpdate`) is mirrored by the
corresponding pure operation (`insertA`, `eraseA`, fold of `insertA`).
Logging, locking and the `@volatile` snapshot slot are outside the claims and
are dropped: `updateMetadata` takes the previous snapshot and returns the new
snapshot together with the deleted-partition list, exactly as the write path
computes them under the write lock.
-/

namespace MetaCacheModel

/-- First-match lookup in an association list (hash-map `get`). -/
def lookupA {α β : Type} [DecidableEq α] (k : α) : List (α × β) → Option β
  | [] => none
  | q :: qs => if q.1 = k then some q.2 else lookupA k qs

/-- Replace-in-place-or-append insertion (hash-map assignment `m(k) = v`). -/
def insertA {α β : Type} [DecidableEq α] (k : α) (v : β) : List (α × β) → List (α × β)
  | [] => [(k, v)]
  | q :: qs => if q.1 = k then (k, v) :: qs else q :: insertA k v qs

/-- Remove the first binding of `k` (hash-map `remove`). -/
def eraseA {α β : Type} [DecidableEq α] (k : α) : List (α × β) → List (α × β)
  | [] => []
  | q :: qs => if q.1 = k then qs else q :: eraseA k qs

/-- Last-match lookup: the binding a left-to-right bulk insert leaves in force. -/
def lookupLast {α β : Type} [DecidableEq α] (k : α) : List (α × β) → Option β
  | [] => none
  | q :: qs => match lookupLast k qs with
    | some v => some v
    | none => if q.1 = k then some q.2 else none

/-- Left-biased choice on `Option`. -/
def orElseO {α : Type} : Option α → Option α → Option α
  | some x, _ => some x
  | none, b => b

/-- Bulk insert of `new1` into `old` (Scala `old ++= new1`, later entries win). -/
def mergeA {α β : Type} [DecidableEq α] (old new1 : List (α × β)) : List (α × β) :=
  new1.foldl (fun m q => insertA q.1 q.2 m) old

/-- Scala `.toMap` on a pair list: bulk insert into the empty map. -/
def toMapA {α β : Type} [DecidableEq α] (l : List (α × β)) : List (α × β) :=
  mergeA [] l

/-! ## Data model (`org.apache.kafka.common` value classes, embedded as plain data) -/

/-- `org.apache.kafka.common.Node`: numeric id plus one (host, port) endpoint. -/
structure Node where
  id : Int
  host : String
  port : Int
deriving DecidableEq, Repr

/-- `Node.noNode()`: the distinguished empty node `Node(-1, "", -1)`. -/
def Node.noNode : Node := ⟨-1, "", -1⟩

/-- `org.apache.kafka.common.TopicPartition`. -/
structure TopicPartition where
  topic : String
  partition : Int
deriving DecidableEq, Repr

/-- `org.apache.kafka.common.Uuid`: two 64-bit halves, embedded as integers. -/
structure Uuid where
  msb : Int
  lsb : Int
deriving DecidableEq, Repr

/-- `Uuid.ZERO_UUID`: the nil topic identifier. -/
def Uuid.ZERO : Uuid := ⟨0, 0⟩

/-- `kafka.cluster.EndPoint`: one advertised endpoint of a broker
(the security protocol is kept as its raw wire id). -/
structure EndPoint where
  host : String
  port : Int
  listenerName : String
  securityProtocol : Int
deriving DecidableEq, Repr

/-- `kafka.cluster.Broker`: broker id, advertised endpoints, optional rack. -/
structure Broker where
  id : Int
  endPoints : List EndPoint
  rack : Option String
deriving DecidableEq, Repr

namespace LeaderAndIsr

/-- Modelled from the spec: `kafka.api.LeaderAndIsr.LeaderDuringDelete`, the
reserved sentinel leader value meaning "this partition is being deleted"
(the `LeaderAndIsr` object itself is not among the supplied sources). -/
def LeaderDuringDelete : Int := -2

end LeaderAndIsr

/-! ## Update message (`UpdateMetadataRequest` wire data, embedded as plain data) -/

/-- One advertised endpoint inside an `UpdateMetadataBroker` descriptor. -/
structure UpdateMetadataEndpoint where
  host : String
  port : Int
  listener : String
  securityProtocol : Int
deriving DecidableEq, Repr

/-- One live-broker descriptor of the update message. -/
structure UpdateMetadataBroker where
  id : Int
  rack : Option String
  endpoints : List UpdateMetadataEndpoint
deriving DecidableEq, Repr

/-- One topic-name-to-identifier association of the update message. -/
structure UpdateMetadataTopicState where
  topicName : String
  topicId : Uuid
deriving DecidableEq, Repr

/-- One per-partition state entry of the update message. -/
structure UpdateMetadataPartitionState where
  topicName : String
  partitionIndex : Int
  controllerEpoch : Int
  leader : Int
  leaderEpoch : Int
  isr : List Int
  zkVersion : Int
  replicas : List Int
  offlineReplicas : List Int
deriving DecidableEq, Repr

/-- The update message consumed by `updateMetadata`. -/
structure UpdateMetadataRequest where
  controllerId : Int
  controllerEpoch : Int
  brokerEpoch : Int
  liveBrokers : List UpdateMetadataBroker
  topicStates : List UpdateMetadataTopicState
  partitionStates : List UpdateMetadataPartitionState
deriving DecidableEq, Repr

/-! ## Snapshot -/

/-- `ZkMetadataCache.MetadataSnapshot`: the immutable queryable state. -/
structure MetadataSnapshot where
  partitionStates : List (String × List (Int × UpdateMetadataPartitionState))
  topicIds : List (String × Uuid)
  controllerId : Option Int
  aliveBrokers : List (Int × Broker)
  aliveNodes : List (Int × List (String × Node))
deriving DecidableEq, Repr

/-! ## Update merger -/

/-- The `updateMetadataRequest.liveBrokers.forEach` loop: rebuild the
alive-broker and alive-node maps entirely from the message's node list. -/
def buildAlive (lbs : List UpdateMetadataBroker) :
    List (Int × Broker) × List (Int × List (String × Node)) :=
  lbs.foldl (fun acc b =>
    let nodes := b.endpoints.foldl
      (fun ns ep => insertA ep.listener (Node.mk b.id ep.host ep.port) ns) []
    let endPoints := b.endpoints.map
      (fun ep => EndPoint.mk ep.host ep.port ep.listener ep.securityProtocol)
    (insertA b.id (Broker.mk b.id endPoints b.rack) acc.1, insertA b.id nodes acc.2))
    ([], [])

/-- The `newTopicIds` computation: the message's (name, id) pairs with
zero-UUID associations filtered out before `.toMap` deduplication. -/
def newTopicIds (m : UpdateMetadataRequest) : List (String × Uuid) :=
  toMapA (((m.topicStates.map (fun ts => (ts.topicName, ts.topicId))).filter
    (fun q => decide (q.2 ≠ Uuid.ZERO))))

/-- `ZkMetadataCache.addOrUpdatePartitionInfo`: insert or overwrite one
(topic, partition) entry, creating the topic's inner map when absent. -/
def addOrUpdatePartitionInfo
    (partitionStates : List (String × List (Int × UpdateMetadataPartitionState)))
    (topic : String) (partitionId : Int) (stateInfo : UpdateMetadataPartitionState) :
    List (String × List (Int × UpdateMetadataPartitionState)) :=
  let infos := (lookupA topic partitionStates).getD []
  insertA topic (insertA partitionId stateInfo infos) partitionStates

/-- `ZkMetadataCache.removePartitionInfo`: remove one (topic, partition) entry;
when that empties the topic's inner map, drop the topic from both the
partition-state map and the topic-id map. A missing topic is a no-op. -/
def removePartitionInfo
    (partitionStates : List (String × List (Int × UpdateMetadataPartitionState)))
    (topicIds : List (String × Uuid)) (topic : String) (partitionId : Int) :
    List (String × List (Int × UpdateMetadataPartitionState)) × List (String × Uuid) :=
  match lookupA topic partitionStates with
  | none => (partitionStates, topicIds)
  | some infos =>
    let infos2 := eraseA partitionId infos
    if infos2 = [] then (eraseA topic partitionStates, eraseA topic topicIds)
    else (insertA topic infos2 partitionStates, topicIds)

/-- Accumulator of the `newStates.foreach` loop of `updateMetadata`. -/
structure UpdBuild where
  ps : List (String × List (Int × UpdateMetadataPartitionState))
  tids : List (String × Uuid)
  deleted : List TopicPartition
deriving DecidableEq, Repr

/-- One iteration of the `newStates.foreach` loop: a delete-sentinel entry
removes the partition and records it as deleted; any other entry is
inserted or overwritten. -/
def applyPartitionState (acc : UpdBuild) (st : UpdateMetadataPartitionState) : UpdBuild :=
  if st.leader = LeaderAndIsr.LeaderDuringDelete then
    let r := removePartitionInfo acc.ps acc.tids st.topicName st.partitionIndex
    { ps := r.1, tids := r.2,
      deleted := acc.deleted ++ [TopicPartition.mk st.topicName st.partitionIndex] }
  else
    { acc with ps := addOrUpdatePartitionInfo acc.ps st.topicName st.partitionIndex st }

/-- Initial accumulator of the partition-state loop: the (structurally copied)
previous partition-state map, the merged topic-id map, no deletions yet. -/
def initUpd (snap : MetadataSnapshot) (m : UpdateMetadataRequest) : UpdBuild :=
  { ps := snap.partitionStates
    tids := mergeA snap.topicIds (newTopicIds m)
    deleted := [] }

/-- `ZkMetadataCache.updateMetadata`: apply one update message to the previous
snapshot; returns the new snapshot and the deleted-partition list. -/
def updateMetadata (snap : MetadataSnapshot) (m : UpdateMetadataRequest) :
    MetadataSnapshot × List TopicPartition :=
  let alive := buildAlive m.liveBrokers
  let controllerIdOpt : Option Int :=
    if m.controllerId < 0 then none else some m.controllerId
  if m.partitionStates = [] then
    (⟨snap.partitionStates, mergeA snap.topicIds (newTopicIds m),
      controllerIdOpt, alive.1, alive.2⟩, [])
  else
    let r := m.partitionStates.foldl applyPartitionState (initUpd snap m)
    (⟨r.ps, r.tids, controllerIdOpt, alive.1, alive.2⟩, r.deleted)

/-- The snapshot published by one `updateMetadata` call. -/
def snapshotAfter (snap : MetadataSnapshot) (m : UpdateMetadataRequest) :
    MetadataSnapshot :=
  (updateMetadata snap m).1

/-! ## Query facade -/

/-- `getAllTopics`: the key set of the partition-state map. -/
def getAllTopics (snap : MetadataSnapshot) : List String :=
  snap.partitionStates.map Prod.fst

/-- `getAllPartitions`: every (topic, partition) identity of the snapshot. -/
def getAllPartitions (snap : MetadataSnapshot) : List TopicPartition :=
  snap.partitionStates.flatMap (fun q => q.2.map (fun r => TopicPartition.mk q.1 r.1))

/-- `getPartitionInfo`: the state of one (topic, partition), when present. -/
def getPartitionInfo (snap : MetadataSnapshot) (topic : String) (partitionId : Int) :
    Option UpdateMetadataPartitionState :=
  (lookupA topic snap.partitionStates).bind (lookupA partitionId)

/-- `contains(topic)`: whether the partition-state map has the topic. -/
def containsTopic (snap : MetadataSnapshot) (topic : String) : Bool :=
  (lookupA topic snap.partitionStates).isSome

/-- `contains(tp)`: whether the (topic, partition) entry is present. -/
def containsPartition (snap : MetadataSnapshot) (tp : TopicPartition) : Bool :=
  (getPartitionInfo snap tp.topic tp.partition).isSome

/-- `getControllerId`. -/
def getControllerId (snap : MetadataSnapshot) : Option Int :=
  snap.controllerId

/-- `getAliveBrokers`: the alive brokers (the source repackages each `Broker`
as a `MetadataBroker`; that wrapper class is not among the supplied sources,
so the underlying broker values are returned directly). -/
def getAliveBrokers (snap : MetadataSnapshot) : List Broker :=
  snap.aliveBrokers.map Prod.snd

/-- `hasAliveEndpoint`: the broker is alive and registers the listener. -/
def hasAliveEndpoint (snap : MetadataSnapshot) (brokerId : Int) (listenerName : String) :
    Bool :=
  match lookupA brokerId snap.aliveNodes with
  | some byListener => (lookupA listenerName byListener).isSome
  | none => false

/-- `getAliveEndpoint`: the node of an alive broker under the listener. -/
def getAliveEndpoint (snap : MetadataSnapshot) (brokerId : Int) (listenerName : String) :
    Option Node :=
  (lookupA brokerId snap.aliveNodes).bind (lookupA listenerName)

/-- `getPartitionLeaderEndpoint`: absent partition gives `none`; otherwise the
leader resolves to its node under the listener, or to `Node.noNode` when the
leader is not alive or lacks the listener. -/
def getPartitionLeaderEndpoint (snap : MetadataSnapshot) (topic : String)
    (partitionId : Int) (listenerName : String) : Option Node :=
  ((lookupA topic snap.partitionStates).bind (lookupA partitionId)).map
    (fun partitionInfo =>
      match lookupA partitionInfo.leader snap.aliveNodes with
      | some nodeMap => (lookupA listenerName nodeMap).getD Node.noNode
      | none => Node.noNode)

/-- Partition-level error codes of the metadata response. -/
inductive Errors where
  | NONE
  | LEADER_NOT_AVAILABLE
  | LISTENER_NOT_FOUND
  | REPLICA_NOT_AVAILABLE
deriving DecidableEq, Repr

/-- `MetadataResponsePartition` (the error is kept symbolic, not as a wire code). -/
structure MetadataResponsePartition where
  errorCode : Errors
  partitionIndex : Int
  leaderId : Int
  leaderEpoch : Int
  replicaNodes : List Int
  isrNodes : List Int
  offlineReplicas : List Int
deriving DecidableEq, Repr

/-- `maybeFilterAliveReplicas`: with `filterUnavailableEndpoints` unset the
broker list is returned unchanged; otherwise brokers without an alive
endpoint under the listener are filtered out. -/
def maybeFilterAliveReplicas (snap : MetadataSnapshot) (brokers : List Int)
    (listenerName : String) (filterUnavailableEndpoints : Bool) : List Int :=
  if !filterUnavailableEndpoints then brokers
  else brokers.filter (fun b => hasAliveEndpoint snap b listenerName)

/-- The per-partition body of `getPartitionMetadata`: resolve the leader and
assemble one `MetadataResponsePartition` with its error code. -/
def partitionMetadataFor (snap : MetadataSnapshot) (listenerName : String)
    (errorUnavailableEndpoints errorUnavailableListeners : Bool)
    (partitionId : Int) (st : UpdateMetadataPartitionState) :
    MetadataResponsePartition :=
  let maybeLeader := getAliveEndpoint snap st.leader listenerName
  let filteredReplicas :=
    maybeFilterAliveReplicas snap st.replicas listenerName errorUnavailableEndpoints
  let filteredIsr :=
    maybeFilterAliveReplicas snap st.isr listenerName errorUnavailableEndpoints
  match maybeLeader with
  | none =>
    let error :=
      if !(lookupA st.leader snap.aliveBrokers).isSome then Errors.LEADER_NOT_AVAILABLE
      else if errorUnavailableListeners then Errors.LISTENER_NOT_FOUND
      else Errors.LEADER_NOT_AVAILABLE
    ⟨error, partitionId, -1, st.leaderEpoch, filteredReplicas, filteredIsr,
      st.offlineReplicas⟩
  | some leaderNode =>
    let error :=
      if filteredReplicas.length < st.replicas.length then Errors.REPLICA_NOT_AVAILABLE
      else if filteredIsr.length < st.isr.length then Errors.REPLICA_NOT_AVAILABLE
      else Errors.NONE
    ⟨error, partitionId, leaderNode.id, st.leaderEpoch, filteredReplicas, filteredIsr,
      st.offlineReplicas⟩

/-- `getPartitionMetadata`: one response entry per partition of the topic,
`none` when the topic is absent. -/
def getPartitionMetadata (snap : MetadataSnapshot) (topic listenerName : String)
    (errorUnavailableEndpoints errorUnavailableListeners : Bool) :
    Option (List MetadataResponsePartition) :=
  (lookupA topic snap.partitionStates).map (fun partitions =>
    partitions.map (fun q =>
      partitionMetadataFor snap listenerName errorUnavailableEndpoints
        errorUnavailableListeners q.1 q.2))

/-! ## Cluster view (`getClusterMetadata`) -/

/-- `org.apache.kafka.common.PartitionInfo` with resolved nodes. -/
structure PartitionInfo where
  topic : String
  partition : Int
  leader : Node
  replicas : List Node
  isr : List Node
  offlineReplicas : List Node
deriving DecidableEq, Repr

/-- `org.apache.kafka.common.Cluster` (unauthorized topics, always empty in
the source, are omitted; the nullable controller is an `Option`). -/
structure Cluster where
  clusterId : String
  nodes : List Node
  partitions : List PartitionInfo
  internalTopics : List String
  controller : Option Node
deriving DecidableEq, Repr

/-- `org.apache.kafka.common.internals.Topic.isInternal`: the two reserved
internal topic names. -/
def isInternalTopic (topic : String) : Bool :=
  topic = "__consumer_offsets" || topic = "__transaction_state"

/-- The `nodes` map of `getClusterMetadata`: alive brokers restricted to those
with an endpoint under the listener. -/
def clusterNodes (snap : MetadataSnapshot) (listenerName : String) :
    List (Int × Node) :=
  snap.aliveNodes.filterMap (fun q => (lookupA listenerName q.2).map (fun nd => (q.1, nd)))

/-- The `node(id)` resolver of `getClusterMetadata`: the reachable node, or a
placeholder `Node(id, "", -1)` for an unresolvable id. -/
def clusterNode (snap : MetadataSnapshot) (listenerName : String) (id : Int) : Node :=
  (lookupA id (clusterNodes snap listenerName)).getD ⟨id, "", -1⟩

/-- The flattening step of the private `getAllPartitions(snapshot)`: every
(topic, partition) identity paired with its state. -/
def flatPairs (ps : List (String × List (Int × UpdateMetadataPartitionState))) :
    List (TopicPartition × UpdateMetadataPartitionState) :=
  ps.flatMap (fun q => q.2.map (fun r => (TopicPartition.mk q.1 r.1, r.2)))

/-- The private `getAllPartitions(snapshot)` map: every (topic, partition)
paired with its state, deduplicated by `.toMap`. -/
def allPartitionsMap (snap : MetadataSnapshot) :
    List (TopicPartition × UpdateMetadataPartitionState) :=
  toMapA (flatPairs snap.partitionStates)

/-- The `PartitionInfo` built for one partition by `getClusterMetadata`. -/
def mkPartitionInfo (snap : MetadataSnapshot) (listenerName : String)
    (tp : TopicPartition) (st : UpdateMetadataPartitionState) : PartitionInfo :=
  ⟨tp.topic, tp.partition, clusterNode snap listenerName st.leader,
    st.replicas.map (clusterNode snap listenerName),
    st.isr.map (clusterNode snap listenerName),
    st.offlineReplicas.map (clusterNode snap listenerName)⟩

/-- `getClusterMetadata`: the cluster view of one captured snapshot. -/
def getClusterMetadata (snap : MetadataSnapshot) (clusterId listenerName : String) :
    Cluster :=
  ⟨clusterId,
    (clusterNodes snap listenerName).map Prod.snd,
    ((allPartitionsMap snap).filter
        (fun q => decide (q.2.leader ≠ LeaderAndIsr.LeaderDuringDelete))).map
      (fun q => mkPartitionInfo snap listenerName q.1 q.2),
    (getAllTopics snap).filter isInternalTopic,
    snap.controllerId.map (clusterNode snap listenerName)⟩

/-! ## Derived fold views used by the verification below -/

/-- Lookup of one (topic, partition) in a raw partition-state map. -/
def psLookup (ps : List (String × List (Int × UpdateMetadataPartitionState)))
    (topic : String) (partitionId : Int) : Option UpdateMetadataPartitionState :=
  (lookupA topic ps).bind (lookupA partitionId)

/-- The partition-state loop restricted to non-deleting entries. -/
def foldAdds (l : List UpdateMetadataPartitionState)
    (ps : List (String × List (Int × UpdateMetadataPartitionState))) :
    List (String × List (Int × UpdateMetadataPartitionState)) :=
  l.foldl (fun acc st => addOrUpdatePartitionInfo acc st.topicName st.partitionIndex st) ps

/-- The last entry of the list addressed to (topic, partition), if any. -/
def lastMatch (topic : String) (partitionId : Int) :
    List UpdateMetadataPartitionState → Option UpdateMetadataPartitionState
  | [] => none
  | st :: rest => match lastMatch topic partitionId rest with
    | some r => some r
    | none =>
      if st.topicName = topic ∧ st.partitionIndex = partitionId then some st else none

/-! ## Concrete instances used by witnesses and counterexamples -/

/-- The initial, empty snapshot of the cache. -/
def mcEmptySnap : MetadataSnapshot := ⟨[], [], none, [], []⟩

/-- A live-broker descriptor: broker 1 with one "plain" listener. -/
def mcBroker1 : UpdateMetadataBroker := ⟨1, none, [⟨"host1", 9092, "plain", 0⟩]⟩

/-- Partition state: ("orders", 0), leader 1, replicas [1], isr [1]. -/
def mcSt0 : UpdateMetadataPartitionState := ⟨"orders", 0, 0, 1, 0, [1], 0, [1], []⟩

/-- Partition state: ("orders", 0), leader 1, replicas [1, 2], isr [1]. -/
def mcStR2 : UpdateMetadataPartitionState := ⟨"orders", 0, 0, 1, 0, [1], 0, [1, 2], []⟩

/-- Partition state: ("orders", 1), leader 1. -/
def mcSt1 : UpdateMetadataPartitionState := ⟨"orders", 1, 0, 1, 0, [1], 0, [1], []⟩

/-- Delete-sentinel entry for ("orders", 0). -/
def mcDel0 : UpdateMetadataPartitionState :=
  ⟨"orders", 0, 0, LeaderAndIsr.LeaderDuringDelete, 0, [], 0, [], []⟩

/-- Update carrying broker 1, a topic id for "orders" and state `mcSt0`. -/
def mcUFull : UpdateMetadataRequest :=
  ⟨0, 0, 0, [mcBroker1], [⟨"orders", ⟨1, 1⟩⟩], [mcSt0]⟩

/-- Update carrying broker 1 and state `mcStR2` (replica 2 is never alive). -/
def mcUR2 : UpdateMetadataRequest := ⟨0, 0, 0, [mcBroker1], [], [mcStR2]⟩

/-- Liveness-only update with an empty live-broker list. -/
def mcUNoBrokers : UpdateMetadataRequest := ⟨0, 0, 0, [], [], []⟩

/-- Update whose only partition-state entry deletes ("orders", 0). -/
def mcUDel : UpdateMetadataRequest := ⟨0, 0, 0, [], [], [mcDel0]⟩

/-- Update deleting ("orders", 0) and then re-adding ("orders", 1). -/
def mcUDelAdd : UpdateMetadataRequest := ⟨0, 0, 0, [], [], [mcDel0, mcSt1]⟩

/-- Snapshot holding broker 1, the "orders" topic id and partition ("orders", 0). -/
def mcSnap1 : MetadataSnapshot := snapshotAfter mcEmptySnap mcUFull

/-- Snapshot holding broker 1 and partition ("orders", 0) with replicas [1, 2]. -/
def mcSnapR2 : MetadataSnapshot := snapshotAfter mcEmptySnap mcUR2

/-- Liveness-refresh update: broker 1 and a topic id, no partition states. -/
def mcULiveness : UpdateMetadataRequest :=
  ⟨0, 0, 0, [mcBroker1], [⟨"orders", ⟨1, 1⟩⟩], []⟩

/-- Update whose only topic-id association carries the zero UUID. -/
def mcUZero : UpdateMetadataRequest :=
  ⟨0, 0, 0, [], [⟨"orders", Uuid.ZERO⟩], []⟩

/-! ## Association-list lemmas -/

theorem lookupA_insertA_self {α β : Type} [DecidableEq α] (k : α) (v : β)
    (m : List (α × β)) : lookupA k (insertA k v m) = some v := by
  induction m with
  | nil => simp [insertA, lookupA]
  | cons q qs ih =>
    by_cases h : q.1 = k
    · simp [insertA, h, lookupA]
    · simp [insertA, h, lookupA, ih]

theorem lookupA_insertA_ne {α β : Type} [DecidableEq α] {k k' : α} (v : β)
    (m : List (α × β)) (h : k' ≠ k) : lookupA k' (insertA k v m) = lookupA k' m := by
  induction m with
  | nil =>
    simp only [insertA, lookupA]
    rw [if_neg (fun hh => h hh.symm)]
  | cons q qs ih =>
    by_cases hq : q.1 = k
    · subst hq
      simp only [insertA, if_pos rfl, lookupA]
      rw [if_neg (fun hh => h hh.symm), if_neg (fun hh => h hh.symm)]
    · simp only [insertA, if_neg hq, lookupA]
      by_cases hq' : q.1 = k'
      · rw [if_pos hq', if_pos hq']
      · rw [if_neg hq', if_neg hq', ih]

theorem lookupA_eraseA_ne {α β : Type} [DecidableEq α] {k k' : α}
    (m : List (α × β)) (h : k' ≠ k) : lookupA k' (eraseA k m) = lookupA k' m := by
  induction m with
  | nil => simp [eraseA]
  | cons q qs ih =>
    by_cases hq : q.1 = k
    · subst hq
      have he : eraseA q.1 (q :: qs) = qs := by simp [eraseA]
      rw [he]
      show lookupA k' qs = lookupA k' (q :: qs)
      simp only [lookupA]
      rw [if_neg (fun hh => h hh.symm)]
    · simp only [eraseA, if_neg hq, lookupA]
      by_cases hq' : q.1 = k'
      · rw [if_pos hq', if_pos hq']
      · rw [if_neg hq', if_neg hq', ih]

theorem lookupA_eq_none_iff {α β : Type} [DecidableEq α] (k : α) (m : List (α × β)) :
    lookupA k m = none ↔ k ∉ m.map Prod.fst := by
  induction m with
  | nil => simp [lookupA]
  | cons q qs ih =>
    by_cases hq : q.1 = k
    · simp [lookupA, hq]
    · simp only [lookupA, if_neg hq]
      rw [ih]
      simp only [List.map_cons, List.mem_cons]
      constructor
      · intro hk
        push_neg
        exact ⟨fun he => hq he.symm, hk⟩
      · intro hk
        push_neg at hk
        exact hk.2

theorem lookupA_eraseA_self {α β : Type} [DecidableEq α] (k : α) {m : List (α × β)}
    (h : (m.map Prod.fst).Nodup) : lookupA k (eraseA k m) = none := by
  induction m with
  | nil => simp [eraseA, lookupA]
  | cons q qs ih =>
    simp only [List.map_cons, List.nodup_cons] at h
    by_cases hq : q.1 = k
    · subst hq
      simp only [eraseA, if_pos rfl]
      exact (lookupA_eq_none_iff _ _).mpr h.1
    · simp [eraseA, hq, lookupA, ih h.2]

theorem mem_keys_insertA {α β : Type} [DecidableEq α] (k a : α) (v : β)
    (m : List (α × β)) :
    a ∈ (insertA k v m).map Prod.fst ↔ a = k ∨ a ∈ m.map Prod.fst := by
  induction m with
  | nil => simp [insertA]
  | cons q qs ih =>
    by_cases hq : q.1 = k
    · subst hq
      simp [insertA]
    · simp only [insertA, if_neg hq, List.map_cons, List.mem_cons, ih]
      tauto

theorem nodup_keys_insertA {α β : Type} [DecidableEq α] (k : α) (v : β)
    {m : List (α × β)} (h : (m.map Prod.fst).Nodup) :
    ((insertA k v m).map Prod.fst).Nodup := by
  induction m with
  | nil => simp [insertA]
  | cons q qs ih =>
    simp only [List.map_cons, List.nodup_cons] at h
    by_cases hq : q.1 = k
    · have he : insertA k v (q :: qs) = (k, v) :: qs := by
        simp [insertA, hq]
      rw [he]
      simp only [List.map_cons, List.nodup_cons]
      exact ⟨hq ▸ h.1, h.2⟩
    · simp only [insertA, if_neg hq, List.map_cons, List.nodup_cons]
      refine ⟨fun hm => ?_, ih h.2⟩
      rcases (mem_keys_insertA k q.1 v qs).mp hm with h1 | h1
      · exact hq h1
      · exact h.1 h1

theorem keys_eraseA_sublist {α β : Type} [DecidableEq α] (k : α) (m : List (α × β)) :
    ((eraseA k m).map Prod.fst).Sublist (m.map Prod.fst) := by
  induction m with
  | nil => simp [eraseA]
  | cons q qs ih =>
    by_cases hq : q.1 = k
    · simp only [eraseA, if_pos hq, List.map_cons]
      exact (List.sublist_cons_self _ _)
    · simp only [eraseA, if_neg hq, List.map_cons]
      exact ih.cons₂ _

theorem nodup_keys_eraseA {α β : Type} [DecidableEq α] (k : α) {m : List (α × β)}
    (h : (m.map Prod.fst).Nodup) : ((eraseA k m).map Prod.fst).Nodup :=
  (keys_eraseA_sublist k m).nodup h

theorem lookupA_mergeA {α β : Type} [DecidableEq α] (k : α) (old new1 : List (α × β)) :
    lookupA k (mergeA old new1) = orElseO (lookupLast k new1) (lookupA k old) := by
  induction new1 generalizing old with
  | nil => simp [mergeA, lookupLast, orElseO]
  | cons q qs ih =>
    show lookupA k (mergeA (insertA q.1 q.2 old) qs) = _
    rw [ih]
    rcases hlast : lookupLast k qs with _ | v
    · by_cases hq : q.1 = k
      · subst hq
        simp [lookupLast, hlast, orElseO, lookupA_insertA_self]
      · simp [lookupLast, hlast, orElseO, hq,
          lookupA_insertA_ne (k := q.1) q.2 old (fun hh => hq (Eq.symm hh))]
    · simp [lookupLast, hlast, orElseO]

theorem nodup_keys_mergeA {α β : Type} [DecidableEq α] {old : List (α × β)}
    (new1 : List (α × β)) (h : (old.map Prod.fst).Nodup) :
    ((mergeA old new1).map Prod.fst).Nodup := by
  induction new1 generalizing old with
  | nil => exact h
  | cons q qs ih => exact ih (nodup_keys_insertA q.1 q.2 h)

theorem mem_of_lookupA_eq_some {α β : Type} [DecidableEq α] {k : α} {v : β}
    {m : List (α × β)} (h : lookupA k m = some v) : (k, v) ∈ m := by
  induction m with
  | nil => simp [lookupA] at h
  | cons q qs ih =>
    by_cases hq : q.1 = k
    · simp only [lookupA, if_pos hq, Option.some.injEq] at h
      have he : (k, v) = q := by rw [← hq, ← h]
      rw [he]
      exact List.mem_cons_self q qs
    · simp only [lookupA, if_neg hq] at h
      exact List.mem_cons_of_mem _ (ih h)

theorem lookupA_eq_some_of_mem_nodup {α β : Type} [DecidableEq α] {k : α} {v : β}
    {m : List (α × β)} (hnd : (m.map Prod.fst).Nodup) (h : (k, v) ∈ m) :
    lookupA k m = some v := by
  induction m with
  | nil => simp at h
  | cons q qs ih =>
    simp only [List.map_cons, List.nodup_cons] at hnd
    rcases List.mem_cons.mp h with h1 | h1
    · rw [← h1]
      simp [lookupA]
    · have hk : q.1 ≠ k := by
        intro he
        exact hnd.1 (he ▸ (List.mem_map.mpr ⟨(k, v), h1, rfl⟩))
      simp [lookupA, hk, ih hnd.2 h1]

theorem insertA_of_not_mem {α β : Type} [DecidableEq α] {k : α} (v : β)
    {m : List (α × β)} (h : k ∉ m.map Prod.fst) : insertA k v m = m ++ [(k, v)] := by
  induction m with
  | nil => simp [insertA]
  | cons q qs ih =>
    simp only [List.map_cons, List.mem_cons] at h
    push_neg at h
    simp only [insertA, List.cons_append]
    rw [if_neg (fun hh => h.1 hh.symm), ih h.2]

theorem toMapA_eq_self {α β : Type} [DecidableEq α] {l : List (α × β)}
    (h : (l.map Prod.fst).Nodup) : toMapA l = l := by
  suffices hgen : ∀ acc : List (α × β),
      (∀ a ∈ l.map Prod.fst, a ∉ acc.map Prod.fst) → (l.map Prod.fst).Nodup →
      mergeA acc l = acc ++ l by
    simpa using hgen [] (by simp) h
  clear h
  induction l with
  | nil => intro acc _ _; simp [mergeA]
  | cons q qs ih =>
    intro acc hdisj hnd
    simp only [List.map_cons, List.nodup_cons] at hnd
    show mergeA (insertA q.1 q.2 acc) qs = acc ++ q :: qs
    rw [insertA_of_not_mem q.2 (hdisj q.1 (by simp))]
    have := ih (acc ++ [q]) (fun a ha => by
      simp only [List.map_append, List.mem_append, List.map_cons, List.map_nil,
        List.mem_singleton]
      push_neg
      refine ⟨hdisj a (by simp [ha]), fun he => ?_⟩
      exact hnd.1 (he ▸ ha)) hnd.2
    rw [this, List.append_assoc]
    rfl

theorem orElseO_idem_left {α : Type} (a b : Option α) :
    orElseO a (orElseO a b) = orElseO a b := by
  cases a <;> simp [orElseO]

theorem lookupLast_eq_none_iff {α β : Type} [DecidableEq α] (k : α) (l : List (α × β)) :
    lookupLast k l = none ↔ k ∉ l.map Prod.fst := by
  induction l with
  | nil => simp [lookupLast]
  | cons q qs ih =>
    rcases h : lookupLast k qs with _ | v
    · by_cases hq : q.1 = k
      · simp [lookupLast, h, hq]
      · have hk := ih.mp h
        simp only [lookupLast, h, if_neg hq, List.map_cons, List.mem_cons]
        constructor
        · intro _
          push_neg
          exact ⟨fun he => hq he.symm, hk⟩
        · intro _
          trivial
    · have hmem : k ∈ qs.map Prod.fst := by
        by_contra hk
        rw [ih.mpr hk] at h
        cases h
      simp [lookupLast, h, hmem]

/-! ## Step lemmas for the partition-state loop -/

theorem deleted_applyPartitionState (acc : UpdBuild) (st : UpdateMetadataPartitionState) :
    (applyPartitionState acc st).deleted =
      if st.leader = LeaderAndIsr.LeaderDuringDelete then
        acc.deleted ++ [TopicPartition.mk st.topicName st.partitionIndex]
      else acc.deleted := by
  by_cases h : st.leader = LeaderAndIsr.LeaderDuringDelete <;>
    simp [applyPartitionState, h]

theorem deleted_foldl (l : List UpdateMetadataPartitionState) (acc : UpdBuild) :
    (l.foldl applyPartitionState acc).deleted =
      acc.deleted ++
        (l.filter (fun st =>
            decide (st.leader = LeaderAndIsr.LeaderDuringDelete))).map
          (fun st => TopicPartition.mk st.topicName st.partitionIndex) := by
  induction l generalizing acc with
  | nil => simp
  | cons st rest ih =>
    show (rest.foldl applyPartitionState (applyPartitionState acc st)).deleted = _
    rw [ih, deleted_applyPartitionState]
    by_cases h : st.leader = LeaderAndIsr.LeaderDuringDelete
    · simp [h, List.filter_cons, List.append_assoc]
    · simp [h, List.filter_cons]

/-- Claim C7 (amended): `updateMetadata` returns the (topic, partition)
identities of exactly the delete-sentinel entries of the message, in message
order, whether or not those identities were present in the partition-state
mapping; the list is empty when the message carries no delete-sentinel entry. -/
theorem updateMetadata_deleted_eq_sentinel_entries (snap : MetadataSnapshot)
    (m : UpdateMetadataRequest) :
    (updateMetadata snap m).2 =
      (m.partitionStates.filter (fun st =>
          decide (st.leader = LeaderAndIsr.LeaderDuringDelete))).map
        (fun st => TopicPartition.mk st.topicName st.partitionIndex) := by
  by_cases h : m.partitionStates = []
  · simp [updateMetadata, h]
  · simp only [updateMetadata, if_neg h]
    rw [deleted_foldl]
    simp [initUpd]

/-- Claim C7 (counterexample): on the empty cache, an update whose only entry
is a delete sentinel for the absent partition ("orders", 0) deletes nothing —
the partition-state mapping is empty before and after — yet `updateMetadata`
returns the non-empty list [("orders", 0)], so the return value is not "the
set of identities that were deleted by this update". -/
theorem updateMetadata_deleted_not_actual_deletions :
    getPartitionInfo mcEmptySnap "orders" 0 = none ∧
    getAllPartitions mcEmptySnap = [] ∧
    getAllPartitions (snapshotAfter mcEmptySnap mcUDel) = [] ∧
    (updateMetadata mcEmptySnap mcUDel).2 = [TopicPartition.mk "orders" 0] := by
  refine ⟨rfl, rfl, rfl, ?_⟩
  decide

/-- Claim C6: the controller id of the published snapshot is absent exactly
when the message's controller id is negative and is the message's controller
id otherwise, with no dependence on the previous snapshot or on the message's
controller epoch. -/
theorem getControllerId_after_update (snap : MetadataSnapshot)
    (m : UpdateMetadataRequest) :
    getControllerId (snapshotAfter snap m) =
      (if m.controllerId < 0 then none else some m.controllerId) := by
  by_cases h : m.partitionStates = [] <;>
    simp [getControllerId, snapshotAfter, updateMetadata, h]

/-- Claim C1 (amended): the live-broker list of the message always replaces
the alive mappings wholesale, so an update whose live-broker list is empty
publishes a snapshot with empty alive-broker and alive-node mappings (and
`getAliveBrokers` returns nothing), instead of keeping the previous mappings. -/
theorem updateMetadata_emptyLiveBrokers_clears_alive (snap : MetadataSnapshot)
    (m : UpdateMetadataRequest) (h : m.liveBrokers = []) :
    (snapshotAfter snap m).aliveBrokers = [] ∧
    (snapshotAfter snap m).aliveNodes = [] ∧
    getAliveBrokers (snapshotAfter snap m) = [] := by
  have hb : buildAlive m.liveBrokers = ([], []) := by
    rw [h]
    rfl
  by_cases hp : m.partitionStates = [] <;>
    simp [snapshotAfter, updateMetadata, hp, hb, getAliveBrokers]

/-- Claim C1 (witness): the amended theorem applied to the concrete snapshot
`mcSnap1` and the concrete broker-less update `mcUNoBrokers`. -/
theorem updateMetadata_emptyLiveBrokers_clears_alive_witness :
    mcUNoBrokers.liveBrokers = [] ∧
    ((snapshotAfter mcSnap1 mcUNoBrokers).aliveBrokers = [] ∧
     (snapshotAfter mcSnap1 mcUNoBrokers).aliveNodes = [] ∧
     getAliveBrokers (snapshotAfter mcSnap1 mcUNoBrokers) = []) :=
  ⟨rfl, updateMetadata_emptyLiveBrokers_clears_alive mcSnap1 mcUNoBrokers rfl⟩

/-- Claim C1 (counterexample): on a snapshot holding live broker 1, applying
an update whose live-broker list is empty does not leave the alive mappings
unchanged: they become empty, `getAliveBrokers` stops seeing broker 1, and
the leader endpoint of ("orders", 0) degrades from host1:9092 to the empty
node. -/
theorem updateMetadata_emptyLiveBrokers_not_noop :
    mcUNoBrokers.liveBrokers = [] ∧
    mcSnap1.aliveBrokers ≠ [] ∧
    (snapshotAfter mcSnap1 mcUNoBrokers).aliveBrokers = [] ∧
    getAliveBrokers (snapshotAfter mcSnap1 mcUNoBrokers) ≠ getAliveBrokers mcSnap1 ∧
    getPartitionLeaderEndpoint mcSnap1 "orders" 0 "plain" =
      some (Node.mk 1 "host1" 9092) ∧
    getPartitionLeaderEndpoint (snapshotAfter mcSnap1 mcUNoBrokers) "orders" 0 "plain" =
      some Node.noNode := by
  decide

/-- Claim C2 (amended): `getPartitionMetadata` maps every partition of the
topic through `partitionMetadataFor`; with `errorUnavailableEndpoints` false
the replica and ISR lists are returned unchanged — unreachable members are
retained, not dropped — and the error is never `REPLICA_NOT_AVAILABLE`; with
it true and the leader resolved, the error is `REPLICA_NOT_AVAILABLE` exactly
when filtering removed a replica or ISR member. -/
theorem getPartitionMetadata_replica_filtering (snap : MetadataSnapshot)
    (topic listenerName : String) (eUL : Bool) (p : Int)
    (st : UpdateMetadataPartitionState) :
    (∀ (eUE : Bool) inner, lookupA topic snap.partitionStates = some inner →
      getPartitionMetadata snap topic listenerName eUE eUL =
        some (inner.map (fun q =>
          partitionMetadataFor snap listenerName eUE eUL q.1 q.2))) ∧
    ((partitionMetadataFor snap listenerName false eUL p st).replicaNodes =
        st.replicas ∧
     (partitionMetadataFor snap listenerName false eUL p st).isrNodes = st.isr ∧
     (partitionMetadataFor snap listenerName false eUL p st).errorCode ≠
        Errors.REPLICA_NOT_AVAILABLE) ∧
    (∀ leaderNode, getAliveEndpoint snap st.leader listenerName = some leaderNode →
      ((partitionMetadataFor snap listenerName true eUL p st).errorCode =
          Errors.REPLICA_NOT_AVAILABLE ↔
        ((st.replicas.filter
            (fun b => hasAliveEndpoint snap b listenerName)).length <
              st.replicas.length ∨
         (st.isr.filter
            (fun b => hasAliveEndpoint snap b listenerName)).length <
              st.isr.length))) := by
  refine ⟨?_, ?_, ?_⟩
  · intro eUE inner h
    simp [getPartitionMetadata, h]
  · refine ⟨?_, ?_, ?_⟩
    · rcases hL : getAliveEndpoint snap st.leader listenerName with _ | leaderNode <;>
        simp [partitionMetadataFor, hL, maybeFilterAliveReplicas]
    · rcases hL : getAliveEndpoint snap st.leader listenerName with _ | leaderNode <;>
        simp [partitionMetadataFor, hL, maybeFilterAliveReplicas]
    · rcases hL : getAliveEndpoint snap st.leader listenerName with _ | leaderNode
      · simp only [partitionMetadataFor, hL, maybeFilterAliveReplicas]
        split_ifs <;> simp
      · simp [partitionMetadataFor, hL, maybeFilterAliveReplicas, lt_irrefl]
  · intro leaderNode hL
    simp only [partitionMetadataFor, hL, maybeFilterAliveReplicas]
    by_cases h1 : (st.replicas.filter
        (fun b => hasAliveEndpoint snap b listenerName)).length < st.replicas.length <;>
      by_cases h2 : (st.isr.filter
          (fun b => hasAliveEndpoint snap b listenerName)).length < st.isr.length <;>
      simp [h1, h2]

/-- Claim C2 (counterexample): partition ("orders", 0) lists replicas [1, 2]
and broker 2 is unreachable under listener "plain"; with
`errorUnavailableEndpoints = false` the returned replica list still contains
broker 2 — the unreachable member is not dropped — and the error is NONE. -/
theorem getPartitionMetadata_keeps_unreachable_when_flag_false :
    hasAliveEndpoint mcSnapR2 2 "plain" = false ∧
    getPartitionMetadata mcSnapR2 "orders" "plain" false false =
      some [⟨Errors.NONE, 0, 1, 0, [1, 2], [1], []⟩] := by
  decide

/-- Claim C3: `getPartitionLeaderEndpoint` returns `none` exactly when the
(topic, partition) entry is absent; for a present entry it returns
`some Node.noNode` when the leader id is not in the alive-node mapping or the
alive leader lacks the listener, and `some node` with the leader's endpoint
under the listener otherwise. -/
theorem getPartitionLeaderEndpoint_three_way (snap : MetadataSnapshot)
    (topic : String) (p : Int) (listenerName : String) :
    (getPartitionLeaderEndpoint snap topic p listenerName = none ↔
      getPartitionInfo snap topic p = none) ∧
    (∀ st, getPartitionInfo snap topic p = some st →
      ((lookupA st.leader snap.aliveNodes = none →
          getPartitionLeaderEndpoint snap topic p listenerName = some Node.noNode) ∧
       (∀ byListener, lookupA st.leader snap.aliveNodes = some byListener →
          lookupA listenerName byListener = none →
          getPartitionLeaderEndpoint snap topic p listenerName = some Node.noNode) ∧
       (∀ byListener nd, lookupA st.leader snap.aliveNodes = some byListener →
          lookupA listenerName byListener = some nd →
          getPartitionLeaderEndpoint snap topic p listenerName = some nd))) := by
  have hdef : getPartitionLeaderEndpoint snap topic p listenerName =
      (getPartitionInfo snap topic p).map (fun partitionInfo =>
        match lookupA partitionInfo.leader snap.aliveNodes with
        | some nodeMap => (lookupA listenerName nodeMap).getD Node.noNode
        | none => Node.noNode) := rfl
  constructor
  · rw [hdef]
    exact Option.map_eq_none'
  · intro st hst
    rw [hdef, hst]
    refine ⟨?_, ?_, ?_⟩
    · intro h
      simp [h]
    · intro byListener h1 h2
      simp [h1, h2]
    · intro byListener nd h1 h2
      simp [h1, h2]

/-- Claim C5: an update with an empty partition-state list publishes a
snapshot that reuses the previous partition-state mapping unchanged — all
topics and all partitions are the same — while the alive mappings are rebuilt
from the message's live-broker list and every topic-id lookup sees the
message's entries first, then the previous mapping. -/
theorem updateMetadata_emptyPartitionStates_frame (snap : MetadataSnapshot)
    (m : UpdateMetadataRequest) (h : m.partitionStates = []) :
    (snapshotAfter snap m).partitionStates = snap.partitionStates ∧
    getAllTopics (snapshotAfter snap m) = getAllTopics snap ∧
    getAllPartitions (snapshotAfter snap m) = getAllPartitions snap ∧
    (snapshotAfter snap m).aliveBrokers = (buildAlive m.liveBrokers).1 ∧
    (snapshotAfter snap m).aliveNodes = (buildAlive m.liveBrokers).2 ∧
    (∀ t, lookupA t (snapshotAfter snap m).topicIds =
      orElseO (lookupLast t (newTopicIds m)) (lookupA t snap.topicIds)) := by
  have hs : snapshotAfter snap m = ⟨snap.partitionStates,
      mergeA snap.topicIds (newTopicIds m),
      (if m.controllerId < 0 then none else some m.controllerId),
      (buildAlive m.liveBrokers).1, (buildAlive m.liveBrokers).2⟩ := by
    simp [snapshotAfter, updateMetadata, h]
  rw [hs]
  exact ⟨rfl, rfl, rfl, rfl, rfl, fun t => lookupA_mergeA t _ _⟩

/-- Claim C5 (witness): the frame theorem applied to the concrete snapshot
`mcSnap1` and the concrete liveness-only update `mcULiveness`. -/
theorem updateMetadata_emptyPartitionStates_frame_witness :
    mcULiveness.partitionStates = [] ∧
    getAllTopics (snapshotAfter mcSnap1 mcULiveness) = getAllTopics mcSnap1 :=
  ⟨rfl, (updateMetadata_emptyPartitionStates_frame mcSnap1 mcULiveness rfl).2.1⟩

/-- Claim C10: a topic-id association carrying the zero UUID is filtered out
before the merge, so the whole result of `updateMetadata` — in particular the
published topic-identifier mapping — is the same as if the message had not
contained that association. -/
theorem updateMetadata_ignores_zero_uuid (snap : MetadataSnapshot)
    (m : UpdateMetadataRequest) (l1 l2 : List UpdateMetadataTopicState)
    (a : UpdateMetadataTopicState) (hsplit : m.topicStates = l1 ++ a :: l2)
    (hzero : a.topicId = Uuid.ZERO) :
    updateMetadata snap m = updateMetadata snap { m with topicStates := l1 ++ l2 } := by
  have hn : newTopicIds m = newTopicIds { m with topicStates := l1 ++ l2 } := by
    simp [newTopicIds, hsplit, List.map_append, List.filter_append,
      List.filter_cons, hzero]
  simp [updateMetadata, initUpd, hn]

/-- Claim C10 (witness): the zero-UUID theorem applied to the concrete update
`mcUZero`, whose only topic-id association is ("orders", zero UUID). -/
theorem updateMetadata_ignores_zero_uuid_witness :
    mcUZero.topicStates =
      [] ++ UpdateMetadataTopicState.mk "orders" Uuid.ZERO :: [] ∧
    updateMetadata mcSnap1 mcUZero =
      updateMetadata mcSnap1 { mcUZero with topicStates := [] ++ [] } :=
  ⟨rfl, updateMetadata_ignores_zero_uuid mcSnap1 mcUZero [] []
    (UpdateMetadataTopicState.mk "orders" Uuid.ZERO) rfl rfl⟩

theorem lookupA_addOrUpdate (ps : List (String × List (Int × UpdateMetadataPartitionState)))
    (t0 : String) (p0 : Int) (st : UpdateMetadataPartitionState) (t : String) :
    lookupA t (addOrUpdatePartitionInfo ps t0 p0 st) =
      if t0 = t then some (insertA p0 st ((lookupA t0 ps).getD [])) else lookupA t ps := by
  by_cases h : t0 = t
  · subst h
    simp [addOrUpdatePartitionInfo, lookupA_insertA_self]
  · simp only [addOrUpdatePartitionInfo, if_neg h]
    exact lookupA_insertA_ne _ _ (fun hh => h hh.symm)

theorem psLookup_addOrUpdate (ps : List (String × List (Int × UpdateMetadataPartitionState)))
    (t0 : String) (p0 : Int) (st : UpdateMetadataPartitionState) (t : String) (p : Int) :
    psLookup (addOrUpdatePartitionInfo ps t0 p0 st) t p =
      if t0 = t ∧ p0 = p then some st else psLookup ps t p := by
  simp only [psLookup, lookupA_addOrUpdate]
  by_cases ht : t0 = t
  · subst ht
    rw [if_pos (rfl : t0 = t0), Option.some_bind]
    by_cases hp : p0 = p
    · subst hp
      simp [lookupA_insertA_self]
    · rw [lookupA_insertA_ne _ _ (fun hh => hp hh.symm),
        if_neg (fun hh : t0 = t0 ∧ p0 = p => hp hh.2)]
      rcases hh : lookupA t0 ps with _ | infos <;> simp [hh, lookupA]
  · simp [ht]

theorem isSome_lookupA_addOrUpdate
    (ps : List (String × List (Int × UpdateMetadataPartitionState)))
    (t0 : String) (p0 : Int) (st : UpdateMetadataPartitionState) (t : String) :
    (lookupA t (addOrUpdatePartitionInfo ps t0 p0 st)).isSome =
      (decide (t0 = t) || (lookupA t ps).isSome) := by
  rw [lookupA_addOrUpdate]
  by_cases h : t0 = t <;> simp [h]

theorem foldAdds_cons (st : UpdateMetadataPartitionState)
    (rest : List UpdateMetadataPartitionState)
    (ps : List (String × List (Int × UpdateMetadataPartitionState))) :
    foldAdds (st :: rest) ps =
      foldAdds rest (addOrUpdatePartitionInfo ps st.topicName st.partitionIndex st) :=
  rfl

theorem psLookup_foldAdds (l : List UpdateMetadataPartitionState)
    (ps : List (String × List (Int × UpdateMetadataPartitionState)))
    (t : String) (p : Int) :
    psLookup (foldAdds l ps) t p = orElseO (lastMatch t p l) (psLookup ps t p) := by
  induction l generalizing ps with
  | nil => simp [foldAdds, lastMatch, orElseO]
  | cons st rest ih =>
    rw [foldAdds_cons, ih, psLookup_addOrUpdate]
    rcases hm : lastMatch t p rest with _ | r
    · simp only [lastMatch, hm]
      by_cases hc : st.topicName = t ∧ st.partitionIndex = p
      · simp [hc, orElseO]
      · simp [hc, orElseO]
    · simp [lastMatch, hm, orElseO]

theorem isSome_lookupA_foldAdds (l : List UpdateMetadataPartitionState)
    (ps : List (String × List (Int × UpdateMetadataPartitionState))) (t : String) :
    (lookupA t (foldAdds l ps)).isSome =
      (l.any (fun st => decide (st.topicName = t)) || (lookupA t ps).isSome) := by
  induction l generalizing ps with
  | nil => simp [foldAdds]
  | cons st rest ih =>
    rw [foldAdds_cons, ih, isSome_lookupA_addOrUpdate, List.any_cons]
    cases h1 : rest.any (fun st => decide (st.topicName = t)) <;>
      cases h2 : decide (st.topicName = t) <;>
      cases h3 : (lookupA t ps).isSome <;> simp [h1, h2, h3]

theorem foldl_apply_no_delete (l : List UpdateMetadataPartitionState) (acc : UpdBuild)
    (h : ∀ st ∈ l, st.leader ≠ LeaderAndIsr.LeaderDuringDelete) :
    l.foldl applyPartitionState acc = ⟨foldAdds l acc.ps, acc.tids, acc.deleted⟩ := by
  induction l generalizing acc with
  | nil => simp [foldAdds]
  | cons st rest ih =>
    have hst : st.leader ≠ LeaderAndIsr.LeaderDuringDelete := h st (by simp)
    have happ : applyPartitionState acc st =
        ⟨addOrUpdatePartitionInfo acc.ps st.topicName st.partitionIndex st,
          acc.tids, acc.deleted⟩ := by
      simp [applyPartitionState, hst]
    show rest.foldl applyPartitionState (applyPartitionState acc st) = _
    rw [happ, ih _ (fun s hs => h s (by simp [hs]))]
    rfl

theorem snapshotAfter_no_delete (snap : MetadataSnapshot) (m : UpdateMetadataRequest)
    (h : ∀ st ∈ m.partitionStates, st.leader ≠ LeaderAndIsr.LeaderDuringDelete) :
    snapshotAfter snap m = ⟨foldAdds m.partitionStates snap.partitionStates,
      mergeA snap.topicIds (newTopicIds m),
      (if m.controllerId < 0 then none else some m.controllerId),
      (buildAlive m.liveBrokers).1, (buildAlive m.liveBrokers).2⟩ := by
  by_cases hp : m.partitionStates = []
  · simp [snapshotAfter, updateMetadata, hp, foldAdds]
  · simp only [snapshotAfter, updateMetadata, if_neg hp]
    rw [foldl_apply_no_delete _ _ h]
    rfl

/-- Claim C9: applying the same delete-free update message twice in a row
publishes a snapshot with the same content as applying it once: the same
partition-state lookups and topic containment, the same topic-id lookups,
and the same controller id, alive brokers and alive nodes. -/
theorem updateMetadata_idempotent_no_delete (snap : MetadataSnapshot)
    (m : UpdateMetadataRequest)
    (h : ∀ st ∈ m.partitionStates, st.leader ≠ LeaderAndIsr.LeaderDuringDelete) :
    (∀ t p, getPartitionInfo (snapshotAfter (snapshotAfter snap m) m) t p =
      getPartitionInfo (snapshotAfter snap m) t p) ∧
    (∀ t, containsTopic (snapshotAfter (snapshotAfter snap m) m) t =
      containsTopic (snapshotAfter snap m) t) ∧
    (∀ t, lookupA t (snapshotAfter (snapshotAfter snap m) m).topicIds =
      lookupA t (snapshotAfter snap m).topicIds) ∧
    (snapshotAfter (snapshotAfter snap m) m).controllerId =
      (snapshotAfter snap m).controllerId ∧
    (snapshotAfter (snapshotAfter snap m) m).aliveBrokers =
      (snapshotAfter snap m).aliveBrokers ∧
    (snapshotAfter (snapshotAfter snap m) m).aliveNodes =
      (snapshotAfter snap m).aliveNodes := by
  rw [snapshotAfter_no_delete snap m h,
    snapshotAfter_no_delete _ m h]
  refine ⟨?_, ?_, ?_, rfl, rfl, rfl⟩
  · intro t p
    show psLookup (foldAdds m.partitionStates (foldAdds m.partitionStates
      snap.partitionStates)) t p = psLookup (foldAdds m.partitionStates
      snap.partitionStates) t p
    rw [psLookup_foldAdds, psLookup_foldAdds]
    exact orElseO_idem_left _ _
  · intro t
    show (lookupA t (foldAdds m.partitionStates (foldAdds m.partitionStates
      snap.partitionStates))).isSome = (lookupA t (foldAdds m.partitionStates
      snap.partitionStates)).isSome
    rw [isSome_lookupA_foldAdds, isSome_lookupA_foldAdds]
    cases hb : m.partitionStates.any (fun st => decide (st.topicName = t)) <;> simp
  · intro t
    show lookupA t (mergeA (mergeA snap.topicIds (newTopicIds m)) (newTopicIds m)) =
      lookupA t (mergeA snap.topicIds (newTopicIds m))
    rw [lookupA_mergeA, lookupA_mergeA]
    exact orElseO_idem_left _ _

/-- Claim C9 (witness): the idempotence theorem applied to the empty cache
and the concrete delete-free update `mcUFull`. -/
theorem updateMetadata_idempotent_no_delete_witness :
    (∀ st ∈ mcUFull.partitionStates,
      st.leader ≠ LeaderAndIsr.LeaderDuringDelete) ∧
    getPartitionInfo (snapshotAfter (snapshotAfter mcEmptySnap mcUFull) mcUFull)
      "orders" 0 =
      getPartitionInfo (snapshotAfter mcEmptySnap mcUFull) "orders" 0 :=
  ⟨by decide,
    (updateMetadata_idempotent_no_delete mcEmptySnap mcUFull (by decide)).1 "orders" 0⟩

theorem removePartitionInfo_lookup_ne
    (ps : List (String × List (Int × UpdateMetadataPartitionState)))
    (tids : List (String × Uuid)) (t' : String) (p' : Int) (t : String) (h : t ≠ t') :
    lookupA t (removePartitionInfo ps tids t' p').1 = lookupA t ps ∧
    lookupA t (removePartitionInfo ps tids t' p').2 = lookupA t tids := by
  rcases hl : lookupA t' ps with _ | infos
  · simp [removePartitionInfo, hl]
  · by_cases he : eraseA p' infos = []
    · simp only [removePartitionInfo, hl, he, if_pos]
      exact ⟨lookupA_eraseA_ne _ h, lookupA_eraseA_ne _ h⟩
    · simp only [removePartitionInfo, hl, if_neg he]
      exact ⟨lookupA_insertA_ne _ _ h, trivial⟩

theorem removePartitionInfo_absent
    (ps : List (String × List (Int × UpdateMetadataPartitionState)))
    (tids : List (String × Uuid)) (t : String) (p : Int) (h : lookupA t ps = none) :
    removePartitionInfo ps tids t p = (ps, tids) := by
  simp [removePartitionInfo, h]

theorem applyPartitionState_preserves_gone (acc : UpdBuild)
    (e : UpdateMetadataPartitionState) (t : String)
    (he : e.topicName = t → e.leader = LeaderAndIsr.LeaderDuringDelete)
    (hps : lookupA t acc.ps = none) (htids : lookupA t acc.tids = none) :
    lookupA t (applyPartitionState acc e).ps = none ∧
    lookupA t (applyPartitionState acc e).tids = none := by
  by_cases hdel : e.leader = LeaderAndIsr.LeaderDuringDelete
  · simp only [applyPartitionState, if_pos hdel]
    by_cases ht : e.topicName = t
    · rw [removePartitionInfo_absent _ _ _ _ (ht ▸ hps)]
      exact ⟨hps, htids⟩
    · have h2 := removePartitionInfo_lookup_ne acc.ps acc.tids e.topicName
        e.partitionIndex t (fun hh => ht hh.symm)
      exact ⟨h2.1.trans hps, h2.2.trans htids⟩
  · have ht : e.topicName ≠ t := fun hh => hdel (he hh)
    simp only [applyPartitionState, if_neg hdel]
    refine ⟨?_, htids⟩
    rw [lookupA_addOrUpdate]
    simp [ht, hps]

theorem foldl_preserves_gone (l : List UpdateMetadataPartitionState) (acc : UpdBuild)
    (t : String)
    (hl : ∀ e ∈ l, e.topicName = t → e.leader = LeaderAndIsr.LeaderDuringDelete)
    (hps : lookupA t acc.ps = none) (htids : lookupA t acc.tids = none) :
    lookupA t (l.foldl applyPartitionState acc).ps = none ∧
    lookupA t (l.foldl applyPartitionState acc).tids = none := by
  induction l generalizing acc with
  | nil => exact ⟨hps, htids⟩
  | cons e rest ih =>
    have hstep := applyPartitionState_preserves_gone acc e t
      (hl e (by simp)) hps htids
    exact ih _ (fun s hs hts => hl s (by simp [hs]) hts) hstep.1 hstep.2

theorem applyPartitionState_preserves_nodup (acc : UpdBuild)
    (e : UpdateMetadataPartitionState)
    (hps : (acc.ps.map Prod.fst).Nodup) (htids : (acc.tids.map Prod.fst).Nodup) :
    ((applyPartitionState acc e).ps.map Prod.fst).Nodup ∧
    ((applyPartitionState acc e).tids.map Prod.fst).Nodup := by
  by_cases hdel : e.leader = LeaderAndIsr.LeaderDuringDelete
  · simp only [applyPartitionState, if_pos hdel]
    rcases hl : lookupA e.topicName acc.ps with _ | infos
    · simpa [removePartitionInfo, hl] using ⟨hps, htids⟩
    · by_cases he : eraseA e.partitionIndex infos = []
      · simp only [removePartitionInfo, hl, he, if_pos]
        exact ⟨nodup_keys_eraseA _ hps, nodup_keys_eraseA _ htids⟩
      · simp only [removePartitionInfo, hl, if_neg he]
        exact ⟨nodup_keys_insertA _ _ hps, htids⟩
  · simp only [applyPartitionState, if_neg hdel]
    exact ⟨nodup_keys_insertA _ _ hps, htids⟩

theorem foldl_preserves_nodup (l : List UpdateMetadataPartitionState) (acc : UpdBuild)
    (hps : (acc.ps.map Prod.fst).Nodup) (htids : (acc.tids.map Prod.fst).Nodup) :
    ((l.foldl applyPartitionState acc).ps.map Prod.fst).Nodup ∧
    ((l.foldl applyPartitionState acc).tids.map Prod.fst).Nodup := by
  induction l generalizing acc with
  | nil => exact ⟨hps, htids⟩
  | cons e rest ih =>
    have hstep := applyPartitionState_preserves_nodup acc e hps htids
    exact ih _ hstep.1 hstep.2

/-- Claim C4 (amended): when a delete-sentinel entry removes the last
remaining partition of a topic and no later entry of the same message re-adds
a partition of that topic, the published snapshot contains neither a
partition-state entry nor a topic-identifier entry for it: `contains` is
false, the topic is absent from `getAllTopics`, and the topic-id mapping has
no entry for the name (stated for snapshots with duplicate-free map keys, the
shape every snapshot the cache builds has). -/
theorem updateMetadata_delete_last_partition_removes_topic
    (snap : MetadataSnapshot) (m : UpdateMetadataRequest)
    (l1 l2 : List UpdateMetadataPartitionState)
    (d stOld : UpdateMetadataPartitionState)
    (hndps : (snap.partitionStates.map Prod.fst).Nodup)
    (hndt : (snap.topicIds.map Prod.fst).Nodup)
    (hsplit : m.partitionStates = l1 ++ d :: l2)
    (hd : d.leader = LeaderAndIsr.LeaderDuringDelete)
    (hlast : lookupA d.topicName (l1.foldl applyPartitionState (initUpd snap m)).ps =
      some [(d.partitionIndex, stOld)])
    (hnore : ∀ e ∈ l2, e.topicName = d.topicName →
      e.leader = LeaderAndIsr.LeaderDuringDelete) :
    containsTopic (snapshotAfter snap m) d.topicName = false ∧
    d.topicName ∉ getAllTopics (snapshotAfter snap m) ∧
    lookupA d.topicName (snapshotAfter snap m).topicIds = none := by
  have hne : m.partitionStates ≠ [] := by
    rw [hsplit]
    simp
  have hs : snapshotAfter snap m =
      ⟨(m.partitionStates.foldl applyPartitionState (initUpd snap m)).ps,
        (m.partitionStates.foldl applyPartitionState (initUpd snap m)).tids,
        (if m.controllerId < 0 then none else some m.controllerId),
        (buildAlive m.liveBrokers).1, (buildAlive m.liveBrokers).2⟩ := by
    simp [snapshotAfter, updateMetadata, hne]
  set mid := l1.foldl applyPartitionState (initUpd snap m) with hmid
  have hmidnd : (mid.ps.map Prod.fst).Nodup ∧ (mid.tids.map Prod.fst).Nodup := by
    refine foldl_preserves_nodup l1 (initUpd snap m) hndps ?_
    exact nodup_keys_mergeA _ hndt
  have hstep : applyPartitionState mid d =
      ⟨eraseA d.topicName mid.ps, eraseA d.topicName mid.tids,
        mid.deleted ++ [TopicPartition.mk d.topicName d.partitionIndex]⟩ := by
    have hrm : removePartitionInfo mid.ps mid.tids d.topicName d.partitionIndex =
        (eraseA d.topicName mid.ps, eraseA d.topicName mid.tids) := by
      have he : eraseA d.partitionIndex [(d.partitionIndex, stOld)] = [] := by
        simp [eraseA]
      simp [removePartitionInfo, hlast, he]
    simp [applyPartitionState, hd, hrm]
  have hgone : lookupA d.topicName
        (m.partitionStates.foldl applyPartitionState (initUpd snap m)).ps = none ∧
      lookupA d.topicName
        (m.partitionStates.foldl applyPartitionState (initUpd snap m)).tids = none := by
    rw [hsplit, List.foldl_append]
    show lookupA d.topicName
        ((d :: l2).foldl applyPartitionState mid).ps = none ∧ _
    have hfold : (d :: l2).foldl applyPartitionState mid =
        l2.foldl applyPartitionState (applyPartitionState mid d) := rfl
    rw [hfold, hstep]
    refine foldl_preserves_gone l2 _ d.topicName hnore ?_ ?_
    · exact lookupA_eraseA_self _ hmidnd.1
    · exact lookupA_eraseA_self _ hmidnd.2
  rw [hs]
  refine ⟨?_, ?_, hgone.2⟩
  · show (lookupA d.topicName _).isSome = false
    rw [hgone.1]
    rfl
  · show d.topicName ∉ List.map Prod.fst _
    exact (lookupA_eq_none_iff _ _).mp hgone.1

/-- Claim C4 (witness): the amended theorem applied to the concrete snapshot
`mcSnap1`, whose topic "orders" has the single partition 0, and the concrete
update `mcUDel` whose only entry deletes ("orders", 0). -/
theorem updateMetadata_delete_last_partition_removes_topic_witness :
    ((mcSnap1.partitionStates.map Prod.fst).Nodup ∧
     (mcSnap1.topicIds.map Prod.fst).Nodup ∧
     mcUDel.partitionStates = [] ++ mcDel0 :: [] ∧
     mcDel0.leader = LeaderAndIsr.LeaderDuringDelete ∧
     lookupA mcDel0.topicName
       (([] : List UpdateMetadataPartitionState).foldl applyPartitionState
         (initUpd mcSnap1 mcUDel)).ps = some [(mcDel0.partitionIndex, mcSt0)]) ∧
    (containsTopic (snapshotAfter mcSnap1 mcUDel) mcDel0.topicName = false ∧
     mcDel0.topicName ∉ getAllTopics (snapshotAfter mcSnap1 mcUDel) ∧
     lookupA mcDel0.topicName (snapshotAfter mcSnap1 mcUDel).topicIds = none) :=
  ⟨⟨by decide, by decide, by decide, by decide, by decide⟩,
    updateMetadata_delete_last_partition_removes_topic mcSnap1 mcUDel [] [] mcDel0 mcSt0
      (by decide) (by decide) (by decide) (by decide) (by decide) (by decide)⟩

/-- Claim C4 (counterexample): in the update `mcUDelAdd` the first entry
carries the delete sentinel and removes the last remaining partition of
"orders", but a later entry of the same message re-adds partition
("orders", 1), so the published snapshot still contains the topic — the
claim's unconditional conclusion fails. -/
theorem updateMetadata_delete_last_partition_readd :
    mcUDelAdd.partitionStates = [mcDel0, mcSt1] ∧
    mcDel0.leader = LeaderAndIsr.LeaderDuringDelete ∧
    lookupA "orders" (initUpd mcSnap1 mcUDelAdd).ps = some [(0, mcSt0)] ∧
    lookupA "orders"
      ([mcDel0].foldl applyPartitionState (initUpd mcSnap1 mcUDelAdd)).ps = none ∧
    containsTopic (snapshotAfter mcSnap1 mcUDelAdd) "orders" = true := by
  decide

theorem keys_flatPairs (ps : List (String × List (Int × UpdateMetadataPartitionState))) :
    (flatPairs ps).map Prod.fst =
      ps.flatMap (fun q => q.2.map (fun r => TopicPartition.mk q.1 r.1)) := by
  induction ps with
  | nil => simp [flatPairs]
  | cons q rest ih =>
    simp only [flatPairs, List.flatMap_cons, List.map_append, List.map_map] at ih ⊢
    rw [ih]
    rfl

theorem flatKeys_topic_mem (ps : List (String × List (Int × UpdateMetadataPartitionState)))
    (tp : TopicPartition)
    (h : tp ∈ ps.flatMap (fun q => q.2.map (fun r => TopicPartition.mk q.1 r.1))) :
    tp.topic ∈ ps.map Prod.fst := by
  rcases List.mem_flatMap.mp h with ⟨q, hq, htp⟩
  rcases List.mem_map.mp htp with ⟨r, hr, he⟩
  rw [← he]
  exact List.mem_map.mpr ⟨q, hq, rfl⟩

theorem nodup_flatKeys (ps : List (String × List (Int × UpdateMetadataPartitionState)))
    (h1 : (ps.map Prod.fst).Nodup)
    (h2 : ∀ q ∈ ps, (q.2.map Prod.fst).Nodup) :
    (ps.flatMap (fun q => q.2.map (fun r => TopicPartition.mk q.1 r.1))).Nodup := by
  induction ps with
  | nil => simp
  | cons q rest ih =>
    simp only [List.map_cons, List.nodup_cons] at h1
    simp only [List.flatMap_cons, List.nodup_append]
    refine ⟨?_, ih h1.2 (fun s hs => h2 s (by simp [hs])), ?_⟩
    · have hin : (q.2.map Prod.fst).Nodup := h2 q (by simp)
      have hcomp : (q.2.map (fun r => TopicPartition.mk q.1 r.1)) =
          (q.2.map Prod.fst).map (TopicPartition.mk q.1) := by
        rw [List.map_map]
        rfl
      rw [hcomp]
      refine hin.map ?_
      intro a b hab
      exact congrArg TopicPartition.partition hab
    · intro tp htp1 htp2
      rcases List.mem_map.mp htp1 with ⟨r, hr, he⟩
      have ht0 : tp.topic = q.1 := by rw [← he]
      have := flatKeys_topic_mem rest tp htp2
      rw [ht0] at this
      exact h1.1 this

theorem mem_flatPairs_iff
    (ps : List (String × List (Int × UpdateMetadataPartitionState)))
    (h1 : (ps.map Prod.fst).Nodup)
    (h2 : ∀ q ∈ ps, (q.2.map Prod.fst).Nodup)
    (tp : TopicPartition) (st : UpdateMetadataPartitionState) :
    (tp, st) ∈ flatPairs ps ↔ psLookup ps tp.topic tp.partition = some st := by
  obtain ⟨tt, tpi⟩ := tp
  constructor
  · intro h
    rcases List.mem_flatMap.mp h with ⟨q, hq, hmem⟩
    rcases List.mem_map.mp hmem with ⟨r, hr, he⟩
    injection he with he1 he2
    injection he1 with he1a he1b
    subst he1a
    subst he1b
    subst he2
    show (lookupA q.1 ps).bind (lookupA r.1) = some r.2
    rw [lookupA_eq_some_of_mem_nodup h1 hq, Option.some_bind]
    exact lookupA_eq_some_of_mem_nodup (h2 q hq) hr
  · intro h
    have h' : (lookupA tt ps).bind (lookupA tpi) = some st := h
    rcases hh : lookupA tt ps with _ | inner
    · rw [hh, Option.none_bind] at h'
      cases h'
    · rw [hh, Option.some_bind] at h'
      refine List.mem_flatMap.mpr ⟨(tt, inner), mem_of_lookupA_eq_some hh, ?_⟩
      exact List.mem_map.mpr ⟨(tpi, st), mem_of_lookupA_eq_some h', rfl⟩

theorem mem_allPartitionsMap_iff (snap : MetadataSnapshot)
    (h1 : (snap.partitionStates.map Prod.fst).Nodup)
    (h2 : ∀ q ∈ snap.partitionStates, (q.2.map Prod.fst).Nodup)
    (tp : TopicPartition) (st : UpdateMetadataPartitionState) :
    (tp, st) ∈ allPartitionsMap snap ↔
      getPartitionInfo snap tp.topic tp.partition = some st := by
  have hk : ((flatPairs snap.partitionStates).map Prod.fst).Nodup := by
    rw [keys_flatPairs]
    exact nodup_flatKeys _ h1 h2
  show (tp, st) ∈ toMapA (flatPairs snap.partitionStates) ↔ _
  rw [toMapA_eq_self hk]
  exact mem_flatPairs_iff _ h1 h2 tp st

/-- Claim C8: the cluster view built by `getClusterMetadata` has as node list
exactly the alive nodes that expose an endpoint under the listener, as
partition list exactly the snapshot's partitions whose leader is not the
delete sentinel (each resolved through the view's node table), and as
controller the resolved node of the snapshot's controller id when one is
known and nothing otherwise (stated for snapshots with duplicate-free map
keys, the shape every snapshot the cache builds has). -/
theorem getClusterMetadata_spec (snap : MetadataSnapshot)
    (clusterId listenerName : String)
    (h1 : (snap.partitionStates.map Prod.fst).Nodup)
    (h2 : ∀ q ∈ snap.partitionStates, (q.2.map Prod.fst).Nodup) :
    (∀ nd, nd ∈ (getClusterMetadata snap clusterId listenerName).nodes ↔
      ∃ i byListener, (i, byListener) ∈ snap.aliveNodes ∧
        lookupA listenerName byListener = some nd) ∧
    (∀ pin, pin ∈ (getClusterMetadata snap clusterId listenerName).partitions ↔
      ∃ tp st, getPartitionInfo snap tp.topic tp.partition = some st ∧
        st.leader ≠ LeaderAndIsr.LeaderDuringDelete ∧
        pin = mkPartitionInfo snap listenerName tp st) ∧
    (getClusterMetadata snap clusterId listenerName).controller =
      snap.controllerId.map (clusterNode snap listenerName) := by
  refine ⟨?_, ?_, rfl⟩
  · intro nd
    show nd ∈ (clusterNodes snap listenerName).map Prod.snd ↔ _
    constructor
    · intro hm
      rcases List.mem_map.mp hm with ⟨q, hq, hqe⟩
      rcases List.mem_filterMap.mp hq with ⟨x, hx, hfx⟩
      rcases hlk : lookupA listenerName x.2 with _ | nd0
      · rw [hlk] at hfx
        cases hfx
      · rw [hlk] at hfx
        have hfx' : (x.1, nd0) = q := by
          simpa using hfx
        refine ⟨x.1, x.2, hx, ?_⟩
        rw [hlk, ← hqe, ← hfx']
    · rintro ⟨i, byListener, hmem, hlk⟩
      refine List.mem_map.mpr ⟨(i, nd), ?_, rfl⟩
      exact List.mem_filterMap.mpr ⟨(i, byListener), hmem, by simp [hlk]⟩
  · intro pin
    show pin ∈ ((allPartitionsMap snap).filter
        (fun q => decide (q.2.leader ≠ LeaderAndIsr.LeaderDuringDelete))).map
      (fun q => mkPartitionInfo snap listenerName q.1 q.2) ↔ _
    constructor
    · intro hm
      rcases List.mem_map.mp hm with ⟨q, hq, hqe⟩
      rcases List.mem_filter.mp hq with ⟨hqm, hpred⟩
      refine ⟨q.1, q.2, ?_, ?_, hqe.symm⟩
      · exact (mem_allPartitionsMap_iff snap h1 h2 q.1 q.2).mp hqm
      · exact of_decide_eq_true hpred
    · rintro ⟨tp, st, hg, hne, he⟩
      refine List.mem_map.mpr ⟨(tp, st), ?_, he.symm⟩
      refine List.mem_filter.mpr ⟨?_, decide_eq_true hne⟩
      exact (mem_allPartitionsMap_iff snap h1 h2 tp st).mpr hg

/-- Claim C8 (witness): the cluster-view theorem applied to the concrete
snapshot `mcSnap1`, listener "plain" and cluster id "cid". -/
theorem getClusterMetadata_spec_witness :
    ((mcSnap1.partitionStates.map Prod.fst).Nodup ∧
     (∀ q ∈ mcSnap1.partitionStates, (q.2.map Prod.fst).Nodup)) ∧
    (getClusterMetadata mcSnap1 "cid" "plain").controller =
      mcSnap1.controllerId.map (clusterNode mcSnap1 "plain") :=
  ⟨⟨by decide, by decide⟩,
    (getClusterMetadata_spec mcSnap1 "cid" "plain" (by decide) (by decide)).2.2⟩

end MetaCacheModel
